import Mathlib

/-
Verification of the Pyrseas schema-diff core (the sampled modules
`pyrseas/dbobject/function.py`, `pyrseas/dbobject/trigger.py`,
`pyrseas/dbobject/operfamily.py`) against its natural-language
specification.

The Python classes are embedded shallowly:
  * objects become Lean structures; a Python attribute that may be absent
    (`hasattr` checks) becomes an `Option` field, while attributes the
    code reads unconditionally are plain fields;
  * methods become Lean functions returning the list of SQL statement
    strings the Python method emits (nested lists produced by
    `stmts.append(self.create())` are modelled flattened, as consumed
    downstream);
  * the single piece of mutable state used by the sampled code, the
    `_shell_created` marker set on a type object by `Function.create`,
    is threaded explicitly as a list of the qualified type names whose
    shell has already been created;
  * helpers that live in `pyrseas/dbobject/__init__.py` (not part of the
    sampled sources) are modelled from the spec and marked as such.

Python string helpers (`str.upper`, `str.lower`, `str.replace`,
`str.partition`, `str.find`, `str.rfind`, `str.startswith`) are given
total, executable Lean counterparts operating on `String.data`.

The file is organised as definitions first, then theorems.
-/

namespace Pyrseas

/-! ### Python string primitives -/

/-- Python `str.startswith`: the pattern is a prefix of the string. -/
def strStarts (s pat : String) : Bool :=
  pat.data.isPrefixOf s.data

/-- ASCII lower-casing of one character (models Python `str.lower` on the
identifiers appearing in the sampled code, which are ASCII). -/
def lowerChar (c : Char) : Char :=
  if 'A' ≤ c ∧ c ≤ 'Z' then Char.ofNat (c.toNat + 32) else c

/-- ASCII upper-casing of one character (models Python `str.upper`). -/
def upperChar (c : Char) : Char :=
  if 'a' ≤ c ∧ c ≤ 'z' then Char.ofNat (c.toNat - 32) else c

/-- Python `str.lower` (ASCII). -/
def pyLower (s : String) : String := ⟨s.data.map lowerChar⟩

/-- Python `str.upper` (ASCII). -/
def pyUpper (s : String) : String := ⟨s.data.map upperChar⟩

/-- Fuel-indexed worker for `pyReplace`; the fuel is the length of the
list, which bounds the number of steps, so the recursion is structural. -/
def replaceAux (pat repl : List Char) : Nat → List Char → List Char
  | 0, l => l
  | _ + 1, [] => []
  | fuel + 1, c :: rest =>
    if pat.isPrefixOf (c :: rest) && !pat.isEmpty then
      repl ++ replaceAux pat repl fuel (List.drop (pat.length - 1) rest)
    else
      c :: replaceAux pat repl fuel rest

/-- Python `str.replace`: replace every non-overlapping occurrence of
`pat`, scanning left to right. -/
def pyReplace (s pat repl : String) : String :=
  ⟨replaceAux pat.data repl.data s.data.length s.data⟩

/-- Python `str.partition(sep)` for a one-character separator: split at
the first occurrence, returning `(before, sep, after)`; when the
separator does not occur the result is `(s, "", "")`. -/
def pyPartitionChar (s : String) (c : Char) : String × String × String :=
  match s.data.dropWhile (· ≠ c) with
  | [] => (⟨s.data.takeWhile (· ≠ c)⟩, "", "")
  | _ :: tl => (⟨s.data.takeWhile (· ≠ c)⟩, ⟨[c]⟩, ⟨tl⟩)

/-- Python `str.find` for a one-character needle: index of the first
occurrence, `none` when absent (Python returns `-1`). -/
def charIndex (c : Char) : List Char → Option Nat
  | [] => none
  | x :: xs => if x = c then some 0 else (charIndex c xs).map (· + 1)

/-- Python `str.rfind` for a substring needle: start index of the LAST
occurrence of `pat` in `l`, `none` when absent. -/
def rfindList (pat : List Char) : List Char → Option Nat
  | [] => if pat.isPrefixOf ([] : List Char) then some 0 else none
  | c :: rest =>
    match rfindList pat rest with
    | some i => some (i + 1)
    | none => if pat.isPrefixOf (c :: rest) then some 0 else none

/-- A single-quote character as a string (used inside rendered SQL text). -/
def sq : String := ⟨[Char.ofNat 39]⟩

/-- Python truthiness of `newsrc or self.source`: an absent or empty
string falls back to the default. -/
def pyOrStr (o : Option String) (dflt : String) : String :=
  match o with
  | some s => if s = "" then dflt else s
  | none => dflt

/-- Python truthiness of an optional string (absent or empty is falsy). -/
def pyTruthy (o : Option String) : Bool :=
  match o with
  | some s => s != ""
  | none => false

/-! ### Helpers modelled from the spec

The following definitions correspond to code in
`pyrseas/dbobject/__init__.py`, which is not among the sampled source
files; they are modelled from the spec (§4.1 object-model contract). -/

/-- Modelled from the spec: `quote_id` quotes an identifier only when it
needs quoting; quoting rules are outside the sampled source, and none of
the verified claims depends on them, so the identifier is kept as is. -/
def quote_id (s : String) : String := s

/-- Modelled from the spec: `qualifiedIdentifier()` produces the
schema-qualified name used in rendered statements (§4.1). -/
def qualname (schema name : String) : String := schema ++ "." ++ name

/-- Modelled from the spec: `split_schema_obj` splits a possibly
schema-qualified name `sch.obj` at the first dot, defaulting the schema
to the supplied one (§4.2 generic reference resolution). -/
def split_schema_obj (obj : String) (sch : String) : String × String :=
  if obj.data.contains '.' then
    (⟨obj.data.takeWhile (· ≠ '.')⟩, ⟨(obj.data.dropWhile (· ≠ '.')).tail⟩)
  else
    (sch, obj)

/-! ### The object model of `function.py` -/

/-- `VOLATILITY_TYPES` from `function.py`: map from the one-character
catalog code to the keyword. -/
def VOLATILITY_TYPES : Char → String
  | 'i' => "immutable"
  | 's' => "stable"
  | 'v' => "volatile"
  | _ => ""

/-- A database type (`pyrseas.dbobject.dbtype.DbType`), reduced to the
attributes the sampled code reads: its key and its four converter-routine
attributes (`input`, `output`, `send`, `receive`). -/
structure PgType where
  schema : String
  name : String
  input : Option String := none
  output : Option String := none
  send : Option String := none
  receive : Option String := none
deriving DecidableEq

/-- Qualified name of a type (its `qualname()`). -/
def PgType.qualnameT (t : PgType) : String := qualname t.schema t.name

/-- An element of a dependency set as handled by `Function.get_deps`:
either a `DbType` (the only kind the method inspects) or any other
database object, identified by an opaque key. -/
inductive DbObj where
  | typ (t : PgType)
  | other (key : String)
deriving DecidableEq

/-- The Python class of a `Proc` built by `ProcDict.from_map`. -/
inductive ProcKind where
  | function
  | aggregate
deriving DecidableEq

/-- `objtype` of a `Proc`: derived from the class name (base-class
behaviour, modelled from the spec's kind-word). -/
def ProcKind.objtype : ProcKind → String
  | .function => "FUNCTION"
  | .aggregate => "AGGREGATE"

/-- A procedure (`Proc`/`Function`/`Aggregate` from `function.py`).
Attributes that Python code guards with `hasattr` are `Option` fields;
attributes read unconditionally are plain fields.  `defining` models the
`_defining` back-pointer set by `Function.get_deps`; `event_triggers`
and the aggregate-only payload are omitted (no verified claim reads
them). -/
structure Func where
  kind : ProcKind := .function
  schema : String
  name : String
  arguments : String
  language : String := ""
  returns : String := ""
  source : Option String := none
  obj_file : Option String := none
  link_symbol : Option String := none
  allargs : Option String := none
  volatility : Option Char := none
  leakproof : Option Bool := none
  strict : Option Bool := none
  security_definer : Option Bool := none
  configuration : Option (List String) := none
  cost : Option Nat := none
  rows : Option Nat := none
  owner : Option String := none
  description : Option String := none
  defining : Option PgType := none
deriving DecidableEq

/-- `Proc.extern_key` (function.py lines 27-32):
`'%s %s(%s)' % (self.objtype.lower(), self.name, self.arguments)`. -/
def Func.extern_key (f : Func) : String :=
  pyLower f.kind.objtype ++ " " ++ f.name ++ "(" ++ f.arguments ++ ")"

/-- `Proc.identifier` (function.py lines 34-39):
`"%s(%s)" % (self.qualname(), self.arguments)`. -/
def Func.identifier (f : Func) : String :=
  qualname f.schema f.name ++ "(" ++ f.arguments ++ ")"

/-- `qualname()` of a function object. -/
def Func.qualnameF (f : Func) : String := qualname f.schema f.name

/-- The inner loop test of `Function.get_deps` (function.py lines
200-207): the type designates this routine as one of its converters,
i.e. one of its `input`/`output`/`send`/`receive` attributes is set,
non-empty (Python truthiness of `fname`) and equal to the routine's
qualified name. -/
def converter_of (t : PgType) (qn : String) : Bool :=
  (match t.input with | some s => s ≠ "" && s = qn | none => false) ||
  (match t.output with | some s => s ≠ "" && s = qn | none => false) ||
  (match t.send with | some s => s ≠ "" && s = qn | none => false) ||
  (match t.receive with | some s => s ≠ "" && s = qn | none => false)

/-- One step of the `for dep in list(deps)` loop of `Function.get_deps`:
a designating type is dropped from the kept dependencies and recorded in
`_defining` (a later designating type overwrites an earlier one, as the
Python assignment does); every other dependency is kept. -/
def get_deps_step (qn : String) (acc : List DbObj × Option PgType) (d : DbObj) :
    List DbObj × Option PgType :=
  match d with
  | .typ t => if converter_of t qn then (acc.1, some t) else (acc.1 ++ [d], acc.2)
  | .other _ => (acc.1 ++ [d], acc.2)

/-- `Function.get_deps` (function.py lines 192-209) applied to the
dependency set computed by the superclass, processed in iteration
order.  Returns the resulting dependency set together with the
routine's `_defining` attribute after the loop. -/
def Func.get_deps (f : Func) (deps : List DbObj) : List DbObj × Option PgType :=
  deps.foldl (get_deps_step f.qualnameF) ([], f.defining)

/-- Modelled from the spec: the base-class `drop` emits the ordinary
`DROP` statement for the object (§4.1 render contract). -/
def dropBase (f : Func) : List String :=
  ["DROP " ++ f.kind.objtype ++ " " ++ f.identifier]

/-- `Function.drop` (function.py lines 211-217): a function recorded as
defining a type emits nothing (the type's cascading drop removes it);
otherwise the ordinary drop applies. -/
def Func.drop (f : Func) : List String :=
  if f.defining.isSome then [] else dropBase f

/-- `self.language in ['c', 'internal']` (function.py lines 80 and 122):
the function is implemented in native code. -/
def native_lang (lang : String) : Bool :=
  lang = "c" || lang = "internal"

/-- The entries of the YAML map produced by `Function.to_map` that the
sampled code manipulates (an entry absent from the map is `none`). -/
structure FuncMap where
  volatility : Option String
  source : Option String
  link_symbol : Option String
  cost : Option Nat
  rows : Option Nat
deriving DecidableEq

/-- `Function.to_map` (function.py lines 64-90).  The base map carries
every present attribute; the method then deletes `volatility` for
volatile functions, moves `source` to `link_symbol` for `obj_file`
functions, and deletes `cost`/`rows` when they equal their
language-dependent defaults.  Each field below is the net result of
that delete sequence for the corresponding entry. -/
def Func.to_map (f : Func) : FuncMap :=
  { volatility :=
      if f.volatility = some 'v' then none
      else f.volatility.map VOLATILITY_TYPES
  , source := if f.obj_file.isSome then none else f.source
  , link_symbol := if f.obj_file.isSome then f.source else none
  , cost :=
      match f.cost with
      | some c =>
        if c ≠ 0 then
          if native_lang f.language then
            if c = 1 then none else some c
          else
            if c = 100 then none else some c
        else some c
      | none => none
  , rows :=
      match f.rows with
      | some r =>
        if r ≠ 0 then (if r = 1000 then none else some r) else some r
      | none => none }

/-- The `cost` clause computed by `Function.create` (function.py lines
121-127): empty exactly when the attribute is absent, zero, or equal to
its language-dependent default. -/
def Func.costClause (f : Func) : String :=
  match f.cost with
  | some c =>
    if c ≠ 0 then
      if native_lang f.language then
        if c ≠ 1 then " COST " ++ toString c else ""
      else
        if c ≠ 100 then " COST " ++ toString c else ""
    else ""
  | none => ""

/-- The `rows` clause computed by `Function.create` (function.py lines
128-130). -/
def Func.rowsClause (f : Func) : String :=
  match f.rows with
  | some r =>
    if r ≠ 0 then (if r ≠ 1000 then " ROWS " ++ toString r else "") else ""
  | none => ""

/-- The `src` operand of `AS` in `Function.create` (function.py lines
102-109). -/
def Func.srcClause (f : Func) (newsrc : Option String) : String :=
  match f.obj_file with
  | some o =>
    sq ++ o ++ sq ++ ", " ++ sq ++ pyOrStr f.link_symbol f.name ++ sq
  | none =>
    if f.language = "internal" then
      "$$" ++ pyOrStr newsrc (f.source.getD "") ++ "$$"
    else
      "$_$" ++ pyOrStr newsrc (f.source.getD "") ++ "$_$"

/-- The `volat` clause of `Function.create` (function.py lines 111-112). -/
def Func.volatClause (f : Func) : String :=
  match f.volatility with
  | some v => " " ++ pyUpper (VOLATILITY_TYPES v)
  | none => ""

/-- The `leakproof` clause of `Function.create` (function.py lines
113-114): requires the attribute to be literally `True`. -/
def Func.leakproofClause (f : Func) : String :=
  if f.leakproof = some true then " LEAKPROOF" else ""

/-- The `strict` clause of `Function.create` (function.py lines 115-116). -/
def Func.strictClause (f : Func) : String :=
  if f.strict = some true then " STRICT" else ""

/-- The `secdef` clause of `Function.create` (function.py lines 117-118). -/
def Func.secdefClause (f : Func) : String :=
  if f.security_definer = some true then " SECURITY DEFINER" else ""

/-- The `config` clause of `Function.create` (function.py lines 119-120):
`' SET %s' % self.configuration[0]`. -/
def Func.configClause (f : Func) : String :=
  match f.configuration with
  | some (c :: _) => " SET " ++ c
  | _ => ""

/-- The `CREATE [OR REPLACE] FUNCTION` statement assembled at
function.py lines 143-148.  `OR REPLACE` appears exactly when `newsrc`
is truthy (present and non-empty). -/
def Func.mainStmt (f : Func) (newsrc : Option String) : String :=
  "CREATE" ++ ((if pyTruthy newsrc then " OR REPLACE" else "") ++
    (" FUNCTION " ++ (f.qualnameF ++ ("(" ++ (f.allargs.getD f.arguments ++
    (") RETURNS " ++ (f.returns ++ ("\n    LANGUAGE " ++ (f.language ++
    (f.volatClause ++ (f.leakproofClause ++ (f.strictClause ++
    (f.secdefClause ++ (f.costClause ++ (f.rowsClause ++ (f.configClause ++
    ("\n    AS " ++ f.srcClause newsrc)))))))))))))))))

/-- `Function.create` (function.py lines 95-149, the method body; the
`commentable`/`grantable`/`ownable` wrappers applied to it live outside
the sampled sources and only append trailing comment/grant/owner
statements).  The mutable `_shell_created` marker on the defined type is
threaded as the list `shelled` of qualified type names whose shell
statement was already emitted: when this function defines a type not yet
in that list, a `CREATE TYPE` shell statement is emitted first and the
type is recorded (function.py lines 132-138). -/
def Func.create (f : Func) (newsrc : Option String) (shelled : List String) :
    List String × List String :=
  match f.defining with
  | some t =>
    if t.qualnameT ∈ shelled then
      ([f.mainStmt newsrc], shelled)
    else
      (("CREATE TYPE " ++ t.qualnameT) :: [f.mainStmt newsrc], t.qualnameT :: shelled)
  | none => ([f.mainStmt newsrc], shelled)

/-- A sequence of calls to `Function.create` (no replaced source),
accumulating the emitted statements and threading the shell state. -/
def createSeq : List Func → List String → List String × List String
  | [], st => ([], st)
  | f :: fs, st =>
    let r1 := f.create none st
    let r2 := createSeq fs r1.2
    (r1.1 ++ r2.1, r2.2)

/-- Modelled from the spec: the base-class `alter`
(`DbSchemaObject.alter`, outside the sampled sources) emits owner and
comment adjustment statements only when those attributes differ
(§4.5 `AlterAttribute` for owner/comment). -/
def alterBase (self infn : Func) : List String :=
  (if self.owner ≠ infn.owner then
    (match infn.owner with
     | some o =>
       ["ALTER " ++ self.kind.objtype ++ " " ++ self.identifier ++ " OWNER TO " ++ o]
     | none => [])
   else []) ++
  (if self.description ≠ infn.description then
    ["COMMENT ON " ++ self.kind.objtype ++ " " ++ self.identifier ++ " IS " ++
      (match infn.description with | some d => sq ++ d ++ sq | none => "NULL")]
   else [])

/-- `Function.alter` (function.py lines 151-176): a changed source
re-`CREATE`s the function with the new source; the `leakproof` block
emits `ALTER FUNCTION ... [NOT] LEAKPROOF` (note: it emits the
`LEAKPROOF` form even when both sides already have `leakproof=True`);
then the base-class alter runs.  The shell state is threaded through the
possible `create` call; the nested list Python appends is flattened. -/
def Func.alter (self infn : Func) (st : List String) :
    List String × List String :=
  let r1 : List String × List String :=
    match self.source, infn.source with
    | some s, some t => if s ≠ t then self.create (some t) st else ([], st)
    | _, _ => ([], st)
  let s2 : List String :=
    if self.leakproof = some true then
      if infn.leakproof = some true then
        ["ALTER FUNCTION " ++ self.identifier ++ " LEAKPROOF"]
      else
        ["ALTER FUNCTION " ++ self.identifier ++ " NOT LEAKPROOF"]
    else
      if infn.leakproof = some true then
        ["ALTER FUNCTION " ++ self.qualnameF ++ " LEAKPROOF"]
      else []
  (r1.1 ++ s2 ++ alterBase self infn, r1.2)

/-! ### The object model of `trigger.py` -/

/-- A trigger (`trigger.py`).  The eight attributes compared by
`diff_map` keep their Python names; `procedure`, `timing` and `level`
are read unconditionally by `create` and are plain fields.  `iscfg`
models the presence of the `_iscfg` marker set on augmentation
(configuration) triggers. -/
structure Trigger where
  schema : String
  table : String
  name : String
  constraint : Option Bool := none
  deferrable : Option Bool := none
  initially_deferred : Option Bool := none
  update : Option String := none
  condition : Option String := none
  procedure : String := ""
  timing : String := ""
  level : String := "statement"
  events : List String := []
  columns : Option (List String) := none
  description : Option String := none
  iscfg : Bool := false
deriving DecidableEq

/-- `Trigger.identifier` (trigger.py lines 22-27):
`"%s ON %s" % (quote_id(self.name), self._table.qualname())`. -/
def Trigger.identifier (t : Trigger) : String :=
  quote_id t.name ++ " ON " ++ qualname t.schema t.table

/-- `set(self.events) != set(intrg.events)` (trigger.py line 88):
equality of the two event lists as sets. -/
def eqAsSets (l1 l2 : List String) : Bool :=
  l1.all (fun x => l2.contains x) && l2.all (fun x => l1.contains x)

/-- The comparison loop over `attrs` in `Trigger.diff_map` (trigger.py
lines 79-86): all eight compared attributes agree (`getattr` with a
`None` default corresponds to comparing the `Option`/plain fields). -/
def Trigger.attrsEq (t intrg : Trigger) : Bool :=
  decide (t.constraint = intrg.constraint) &&
  decide (t.deferrable = intrg.deferrable) &&
  decide (t.initially_deferred = intrg.initially_deferred) &&
  decide (t.update = intrg.update) &&
  decide (t.condition = intrg.condition) &&
  decide (t.procedure = intrg.procedure) &&
  decide (t.timing = intrg.timing) &&
  decide (t.level = intrg.level)

/-- The `same` flag computed by `Trigger.diff_map` (trigger.py lines
82-90). -/
def Trigger.same (t intrg : Trigger) : Bool :=
  t.attrsEq intrg && eqAsSets t.events intrg.events

/-- The mutation performed by the comparison loop of `Trigger.diff_map`:
each differing compared attribute is overwritten with the input's value
(so afterwards all eight carry the input's values), and `events` is
replaced only when the two lists differ AS SETS (trigger.py lines
83-90). -/
def Trigger.applyDiff (t intrg : Trigger) : Trigger :=
  { t with
      constraint := intrg.constraint
      deferrable := intrg.deferrable
      initially_deferred := intrg.initially_deferred
      update := intrg.update
      condition := intrg.condition
      procedure := intrg.procedure
      timing := intrg.timing
      level := intrg.level
      events := if eqAsSets t.events intrg.events then t.events else intrg.events }

/-- `Trigger.create` (trigger.py lines 40-66, the method body; the
`commentable` wrapper lives outside the sampled sources and only
appends a trailing comment statement). -/
def Trigger.create (t : Trigger) : List String :=
  let constr := if t.constraint = some true then "CONSTRAINT " else ""
  let defer0 :=
    if t.constraint = some true then
      (if t.deferrable = some true then "DEFERRABLE " else "") ++
        (if t.initially_deferred = some true then "INITIALLY DEFERRED" else "")
    else ""
  let defer1 := if defer0 ≠ "" then "\n    " ++ defer0 else ""
  let evts0 := pyUpper (String.intercalate " OR " t.events)
  let evts :=
    match t.columns with
    | some cols =>
      if t.events.contains "update" then
        pyReplace evts0 "UPDATE" ("UPDATE OF " ++ String.intercalate ", " cols)
      else evts0
    | none => evts0
  let cond :=
    match t.condition with
    | some c => "\n    WHEN (" ++ c ++ ")"
    | none => ""
  ["CREATE " ++ (constr ++ ("TRIGGER " ++ (quote_id t.name ++ ("\n    " ++
    (pyUpper t.timing ++ (" " ++ (evts ++ (" ON " ++
    (qualname t.schema t.table ++ (defer1 ++ ("\n    FOR EACH " ++
    (pyUpper t.level ++ (cond ++ ("\n    EXECUTE PROCEDURE " ++
    t.procedure))))))))))))))]

/-- Modelled from the spec: triggers are not a privileged kind
(§3: `owner`/`privileges` are present only for kinds that support
access control), so the base-class privilege diff emits nothing. -/
def Trigger.diff_privileges (_t _intrg : Trigger) : List String := []

/-- Modelled from the spec: the base-class description diff emits a
comment-setting statement exactly when the description changed
(§4.5 `AlterAttribute` for comment). -/
def Trigger.diff_description (t intrg : Trigger) : List String :=
  if t.description ≠ intrg.description then
    ["COMMENT ON TRIGGER " ++ (t.identifier ++ (" IS " ++
      (match intrg.description with | some d => sq ++ d ++ sq | none => "NULL")))]
  else []

/-- `Trigger.diff_map` (trigger.py lines 68-99): when any compared
attribute or the event set differs, emit `DROP TRIGGER` followed by the
(re)created trigger — rendered from the mutated object, as the Python
loop overwrites `self`'s attributes before calling `create()` — then
the privilege and description diffs.  The nested list appended by
`stmts.append(self.create())` is modelled flattened. -/
def Trigger.diff_map (t intrg : Trigger) : List String :=
  let t2 := t.applyDiff intrg
  (if t.same intrg then []
   else ("DROP TRIGGER " ++ t2.identifier) :: t2.create) ++
    t2.diff_privileges intrg ++ t2.diff_description intrg

/-- A dependency recorded by `Trigger.get_implied_deps`: the table the
trigger is defined on (`db.tables[...]`) or a function
(`db.functions[...]`, keyed by schema, name and argument signature). -/
inductive DepRef where
  | tbl (schema name : String)
  | fn (schema name args : String)
deriving DecidableEq

/-- `Trigger.get_implied_deps` (trigger.py lines 101-118): always the
table; augmentation triggers (`_iscfg`) short-circuit; otherwise the
executed procedure, looked up with an empty argument signature, unless
its unqualified name starts with `tsvector_update_trigger`.  The
superclass contributes no dependencies relevant here (modelled from the
spec, §4.2 generic phase). -/
def Trigger.get_implied_deps (t : Trigger) : List DepRef :=
  let deps := [DepRef.tbl t.schema t.table]
  if t.iscfg then deps
  else
    let sf := split_schema_obj t.procedure t.schema
    if strStarts sf.2 "tsvector_update_trigger" then deps
    else deps ++ [DepRef.fn sf.1 sf.2 ""]

/-! ### `ProcDict.from_map` and `OperatorFamilyDict.from_map` -/

/-- The two error classes raised by the samplers' `from_map` methods. -/
inductive LoadErr where
  | keyError (msg : String)
  | valueError (msg : String)
deriving DecidableEq

/-- One desired-state YAML entry for a function or aggregate, holding
the attributes `ProcDict.from_map` inspects; the remaining attributes
are kept as an opaque association list. -/
structure InFunc where
  source : Option String := none
  obj_file : Option String := none
  language : Option String := none
  volatility : Option String := none
  others : List (String × String) := []
deriving DecidableEq

/-- Python falsiness of the YAML entry (`if not infunc`): the map is
empty. -/
def InFunc.isEmpty (i : InFunc) : Bool :=
  i.source.isNone && i.obj_file.isNone && i.language.isNone &&
    i.volatility.isNone && i.others.isEmpty

/-- `ProcDict.from_map` (function.py lines 353-391) restricted to one
key/entry pair.  Key parsing (partition at the first space, first
parenthesis, final parenthesis), object-type dispatch (`function` vs
`aggregate` including the `language='internal'` default), the
"no specification" check, and the source/obj_file exclusivity check for
functions are modelled; privilege conversion is not (no verified claim
reads it).  Error messages omit the quote characters of the original. -/
def ProcDict.from_map_entry (schemaName key : String) (infunc : InFunc) :
    Except LoadErr Func :=
  let pr := pyPartitionChar key ' '
  let objtype := pr.1
  let spc := pr.2.1
  let fnc := pr.2.2
  if spc ≠ " " ∨ (objtype ≠ "function" ∧ objtype ≠ "aggregate") then
    Except.error (LoadErr.keyError ("Unrecognized object type: " ++ key))
  else
    match charIndex '(' fnc.data with
    | none => Except.error (LoadErr.keyError ("Invalid function signature: " ++ fnc))
    | some p =>
        if fnc.data.getLast? ≠ some ')' then
          Except.error (LoadErr.keyError ("Invalid function signature: " ++ fnc))
        else
          let arguments : String := ⟨(fnc.data.drop (p + 1)).dropLast⟩
          let fname : String := ⟨fnc.data.take p⟩
          let kind := if objtype = "function" then ProcKind.function else ProcKind.aggregate
          let func : Func :=
            { kind := kind, schema := schemaName, name := fname,
              arguments := arguments,
              language :=
                (match infunc.language with
                 | some l => l
                 | none => if kind = ProcKind.aggregate then "internal" else ""),
              source := infunc.source, obj_file := infunc.obj_file,
              volatility := infunc.volatility.map (fun v => lowerChar (v.data.headD ' ')) }
          if infunc.isEmpty then
            Except.error (LoadErr.valueError
              ("Function " ++ fname ++ " has no specification"))
          else if kind = ProcKind.function ∧
              ((infunc.source.isSome ∧ infunc.obj_file.isSome) ∨
               (infunc.source = none ∧ infunc.obj_file = none)) then
            Except.error (LoadErr.valueError
              ("Function " ++ fname ++ ": either source or obj_file must be specified"))
          else Except.ok func

/-- An operator family (`operfamily.py` lines 13-62), reduced to the
constructor arguments its `from_map` supplies. -/
structure OperatorFamily where
  name : String
  schema : String
  index_method : String
  description : Option String := none
  owner : Option String := none
  oldname : Option String := none
deriving DecidableEq

/-- `OperatorFamily.extern_key` (operfamily.py lines 39-45):
`'%s %s using %s' % (self.objtype.lower(), self.name, self.index_method)`
with `objtype = "OPERATOR FAMILY"`. -/
def OperatorFamily.extern_key (o : OperatorFamily) : String :=
  pyLower "OPERATOR FAMILY" ++ " " ++ o.name ++ " using " ++ o.index_method

/-- One desired-state YAML entry for an operator family. -/
structure OpFamIn where
  description : Option String := none
  owner : Option String := none
  oldname : Option String := none
deriving DecidableEq

/-- `OperatorFamilyDict.from_map` (operfamily.py lines 84-101)
restricted to one key/entry pair: the key must start with
`operator family ` and contain ` using `; the name is the slice between
position 16 and the LAST occurrence of ` using ` (`str.rfind`), the
access method the slice after it. -/
def OperatorFamilyDict.from_map_entry (schemaName key : String)
    (inopfam : OpFamIn) : Except LoadErr OperatorFamily :=
  if strStarts key "operator family " = false then
    Except.error (LoadErr.keyError ("Unrecognized object type: " ++ key))
  else
    match rfindList " using ".data key.data with
    | none => Except.error (LoadErr.keyError ("Unrecognized object type: " ++ key))
    | some pos =>
      Except.ok
        { name := ⟨(key.data.drop 16).take (pos - 16)⟩,
          schema := schemaName,
          index_method := ⟨key.data.drop (pos + 7)⟩,
          description := inopfam.description,
          owner := inopfam.owner,
          oldname := inopfam.oldname }

/-! ### Concrete inputs used by witnesses and counterexamples -/

/-- A minimal `sql` function with default-valued cost and rows (C6). -/
def fSql100 : Func :=
  { schema := "s", name := "f", arguments := "", language := "sql",
    cost := some 100, rows := some 1000 }

/-- A minimal `c`-language function with cost 100 (non-default) (C6). -/
def fC100 : Func :=
  { schema := "s", name := "g", arguments := "", language := "c",
    cost := some 100 }

/-- A function with `leakproof=True` and a source, equal to itself (C1). -/
def fLeak : Func :=
  { schema := "public", name := "f", arguments := "", language := "sql",
    source := some "SELECT 1", leakproof := some true }

/-- A plain function without the `leakproof` flag (C1 witness). -/
def fPlain : Func :=
  { schema := "public", name := "f", arguments := "", language := "sql",
    source := some "SELECT 1" }

/-- A trigger used in the C1 witness. -/
def trgPlain : Trigger :=
  { schema := "public", table := "t1", name := "trg1",
    procedure := "public.fn1()", timing := "before", level := "row",
    events := ["insert", "update"] }

/-- The type being defined by the C4 witness functions. -/
def tShell : PgType := { schema := "public", name := "ty" }

/-- First input routine of the C4 witness (defines `public.ty`). -/
def fDef1 : Func :=
  { schema := "public", name := "ty_in", arguments := "cstring",
    language := "c", returns := "ty", obj_file := some "/lib/ty.so",
    defining := some tShell }

/-- Second input routine of the C4 witness (also defines `public.ty`). -/
def fDef2 : Func :=
  { schema := "public", name := "ty_out", arguments := "ty",
    language := "c", returns := "cstring", obj_file := some "/lib/ty.so",
    defining := some tShell }

/-- Observed trigger for the C5 witness. -/
def trgOld : Trigger :=
  { schema := "public", table := "t1", name := "trg1",
    procedure := "public.fn1()", timing := "before", level := "row",
    events := ["insert"] }

/-- Desired trigger for the C5 witness: the executed procedure changed. -/
def trgNew : Trigger :=
  { schema := "public", table := "t1", name := "trg1",
    procedure := "public.fn2()", timing := "before", level := "row",
    events := ["insert"] }

/-- Observed trigger for the C10 witness (events in one order). -/
def trgEvA : Trigger :=
  { schema := "public", table := "t1", name := "trg1",
    procedure := "public.fn1()", timing := "before", level := "row",
    events := ["insert", "update", "delete"] }

/-- Desired trigger for the C10 witness (same events, reordered). -/
def trgEvB : Trigger :=
  { schema := "public", table := "t1", name := "trg1",
    procedure := "public.fn1()", timing := "before", level := "row",
    events := ["delete", "insert", "update"] }

/-- An augmentation-marked trigger whose procedure is ordinary (C8). -/
def trgCfg : Trigger :=
  { schema := "public", table := "t1", name := "trg1",
    procedure := "foo()", timing := "before", level := "row",
    events := ["insert"], iscfg := true }

/-- An ordinary trigger executing a user routine (C8 witness). -/
def trgUser : Trigger :=
  { schema := "public", table := "t1", name := "trg1",
    procedure := "foo()", timing := "before", level := "row",
    events := ["insert"] }

/-- A tsvector-helper trigger (C8 witness). -/
def trgTsv : Trigger :=
  { schema := "public", table := "t1", name := "trg1",
    procedure := "tsvector_update_trigger(tsv, myconfig, title)",
    timing := "before", level := "row", events := ["insert"] }

/-- A YAML entry carrying only a source (C7/C9 witness). -/
def inSrcOnly : InFunc := { source := some "SELECT 1" }

/-- A YAML entry carrying both source and obj_file (C7 witness). -/
def inBoth : InFunc := { source := some "SELECT 1", obj_file := some "/lib/f.so" }

/-- A YAML entry carrying a language only (C7 witness: neither source
nor obj_file, but not empty). -/
def inLangOnly : InFunc := { language := some "sql" }

/-- An empty operator-family YAML entry (C9 witness). -/
def inOpFam : OpFamIn := {}

/-- The function object produced by parsing the C9 witness key. -/
def fooParsed : Func :=
  { kind := ProcKind.function, schema := "public", name := "foo",
    arguments := "integer", source := some "SELECT 1" }

/-! ## Theorems

First the supporting lemmas, then one theorem per claim (with witnesses
and counterexamples where required). -/

/-! ### Lemmas about `Function.get_deps` -/

theorem get_deps_step_typ_pos (qn : String) (acc : List DbObj × Option PgType)
    (t : PgType) (h : converter_of t qn = true) :
    get_deps_step qn acc (DbObj.typ t) = (acc.1, some t) := by
  simp [get_deps_step, h]

theorem get_deps_step_typ_neg (qn : String) (acc : List DbObj × Option PgType)
    (t : PgType) (h : converter_of t qn = false) :
    get_deps_step qn acc (DbObj.typ t) = (acc.1 ++ [DbObj.typ t], acc.2) := by
  simp [get_deps_step, h]

theorem get_deps_step_other (qn : String) (acc : List DbObj × Option PgType)
    (k : String) :
    get_deps_step qn acc (DbObj.other k) = (acc.1 ++ [DbObj.other k], acc.2) := by
  simp [get_deps_step]

theorem get_deps_go_mem_keep (qn : String) :
    ∀ (ds : List DbObj) (ks : List DbObj) (df : Option PgType) (x : DbObj),
      x ∈ ks → x ∈ (ds.foldl (get_deps_step qn) (ks, df)).1 := by
  intro ds
  induction ds with
  | nil => intro ks df x hx; simpa using hx
  | cons d rest ih =>
    intro ks df x hx
    simp only [List.foldl_cons]
    cases d with
    | typ t =>
      cases hc : converter_of t qn with
      | true =>
        rw [get_deps_step_typ_pos qn (ks, df) t hc]
        exact ih ks (some t) x hx
      | false =>
        rw [get_deps_step_typ_neg qn (ks, df) t hc]
        exact ih (ks ++ [DbObj.typ t]) df x (List.mem_append.mpr (Or.inl hx))
    | other k =>
      rw [get_deps_step_other qn (ks, df) k]
      exact ih (ks ++ [DbObj.other k]) df x (List.mem_append.mpr (Or.inl hx))

theorem get_deps_go_not_mem (qn : String) :
    ∀ (ds : List DbObj) (ks : List DbObj) (df : Option PgType) (T : PgType),
      converter_of T qn = true → DbObj.typ T ∉ ks →
      DbObj.typ T ∉ (ds.foldl (get_deps_step qn) (ks, df)).1 := by
  intro ds
  induction ds with
  | nil => intro ks df T _ hks; simpa using hks
  | cons d rest ih =>
    intro ks df T hT hks
    simp only [List.foldl_cons]
    cases d with
    | typ t =>
      cases hc : converter_of t qn with
      | true =>
        rw [get_deps_step_typ_pos qn (ks, df) t hc]
        exact ih ks (some t) T hT hks
      | false =>
        rw [get_deps_step_typ_neg qn (ks, df) t hc]
        refine ih (ks ++ [DbObj.typ t]) df T hT ?_
        intro hmem
        rcases List.mem_append.mp hmem with h | h
        · exact hks h
        · have hTt : T = t := by simpa using h
          rw [hTt] at hT
          rw [hT] at hc
          cases hc
    | other k =>
      rw [get_deps_step_other qn (ks, df) k]
      refine ih (ks ++ [DbObj.other k]) df T hT ?_
      intro hmem
      rcases List.mem_append.mp hmem with h | h
      · exact hks h
      · simp at h

theorem get_deps_go_mem_of_kept (qn : String) :
    ∀ (ds : List DbObj) (ks : List DbObj) (df : Option PgType) (x : DbObj),
      x ∈ ds → (∀ T : PgType, x = DbObj.typ T → converter_of T qn = false) →
      x ∈ (ds.foldl (get_deps_step qn) (ks, df)).1 := by
  intro ds
  induction ds with
  | nil => intro ks df x hx _; simp at hx
  | cons d rest ih =>
    intro ks df x hx hkeep
    simp only [List.foldl_cons]
    rcases List.mem_cons.mp hx with heq | hx'
    · subst heq
      cases x with
      | typ t =>
        have hc : converter_of t qn = false := hkeep t rfl
        rw [get_deps_step_typ_neg qn (ks, df) t hc]
        exact get_deps_go_mem_keep qn rest (ks ++ [DbObj.typ t]) df _
          (List.mem_append.mpr (Or.inr (by simp)))
      | other k =>
        rw [get_deps_step_other qn (ks, df) k]
        exact get_deps_go_mem_keep qn rest (ks ++ [DbObj.other k]) df _
          (List.mem_append.mpr (Or.inr (by simp)))
    · cases d with
      | typ t =>
        cases hc : converter_of t qn with
        | true =>
          rw [get_deps_step_typ_pos qn (ks, df) t hc]
          exact ih ks (some t) x hx' hkeep
        | false =>
          rw [get_deps_step_typ_neg qn (ks, df) t hc]
          exact ih (ks ++ [DbObj.typ t]) df x hx' hkeep
      | other k =>
        rw [get_deps_step_other qn (ks, df) k]
        exact ih (ks ++ [DbObj.other k]) df x hx' hkeep

theorem get_deps_go_def_preserve (qn : String) :
    ∀ (ds : List DbObj) (ks : List DbObj) (T : PgType),
      converter_of T qn = true →
      ∃ T', (ds.foldl (get_deps_step qn) (ks, some T)).2 = some T' ∧
        converter_of T' qn = true := by
  intro ds
  induction ds with
  | nil => intro ks T hT; exact ⟨T, rfl, hT⟩
  | cons d rest ih =>
    intro ks T hT
    simp only [List.foldl_cons]
    cases d with
    | typ t =>
      cases hc : converter_of t qn with
      | true =>
        rw [get_deps_step_typ_pos qn (ks, some T) t hc]
        exact ih ks t hc
      | false =>
        rw [get_deps_step_typ_neg qn (ks, some T) t hc]
        exact ih (ks ++ [DbObj.typ t]) T hT
    | other k =>
      rw [get_deps_step_other qn (ks, some T) k]
      exact ih (ks ++ [DbObj.other k]) T hT

theorem get_deps_go_def_some (qn : String) :
    ∀ (ds : List DbObj) (ks : List DbObj) (df : Option PgType) (T : PgType),
      DbObj.typ T ∈ ds → converter_of T qn = true →
      ∃ T', (ds.foldl (get_deps_step qn) (ks, df)).2 = some T' ∧
        converter_of T' qn = true := by
  intro ds
  induction ds with
  | nil => intro ks df T h _; simp at h
  | cons d rest ih =>
    intro ks df T hmem hT
    simp only [List.foldl_cons]
    cases d with
    | typ t =>
      cases hc : converter_of t qn with
      | true =>
        rw [get_deps_step_typ_pos qn (ks, df) t hc]
        exact get_deps_go_def_preserve qn rest ks t hc
      | false =>
        have hmem' : DbObj.typ T ∈ rest := by
          rcases List.mem_cons.mp hmem with h | h
          · have hTt : T = t := by simpa using h
            rw [hTt] at hT; rw [hT] at hc; cases hc
          · exact h
        rw [get_deps_step_typ_neg qn (ks, df) t hc]
        exact ih (ks ++ [DbObj.typ t]) df T hmem' hT
    | other k =>
      have hmem' : DbObj.typ T ∈ rest := by
        rcases List.mem_cons.mp hmem with h | h
        · simp at h
        · exact h
      rw [get_deps_step_other qn (ks, df) k]
      exact ih (ks ++ [DbObj.other k]) df T hmem' hT

theorem get_deps_go_def_keepT (qn : String) (T : PgType) :
    ∀ (ds : List DbObj) (ks : List DbObj),
      (∀ T' : PgType, DbObj.typ T' ∈ ds → converter_of T' qn = true → T' = T) →
      (ds.foldl (get_deps_step qn) (ks, some T)).2 = some T := by
  intro ds
  induction ds with
  | nil => intro ks _; rfl
  | cons d rest ih =>
    intro ks huniq
    simp only [List.foldl_cons]
    cases d with
    | typ t =>
      cases hc : converter_of t qn with
      | true =>
        have ht : t = T := huniq t (by simp) hc
        rw [get_deps_step_typ_pos qn (ks, some T) t hc, ht]
        exact ih ks (fun T' h1 h2 => huniq T' (List.mem_cons.mpr (Or.inr h1)) h2)
      | false =>
        rw [get_deps_step_typ_neg qn (ks, some T) t hc]
        exact ih (ks ++ [DbObj.typ t]) (fun T' h1 h2 =>
          huniq T' (List.mem_cons.mpr (Or.inr h1)) h2)
    | other k =>
      rw [get_deps_step_other qn (ks, some T) k]
      exact ih (ks ++ [DbObj.other k]) (fun T' h1 h2 =>
        huniq T' (List.mem_cons.mpr (Or.inr h1)) h2)

theorem get_deps_go_def_unique (qn : String) :
    ∀ (ds : List DbObj) (ks : List DbObj) (df : Option PgType) (T : PgType),
      DbObj.typ T ∈ ds → converter_of T qn = true →
      (∀ T' : PgType, DbObj.typ T' ∈ ds → converter_of T' qn = true → T' = T) →
      (ds.foldl (get_deps_step qn) (ks, df)).2 = some T := by
  intro ds
  induction ds with
  | nil => intro ks df T h _ _; simp at h
  | cons d rest ih =>
    intro ks df T hmem hT huniq
    simp only [List.foldl_cons]
    cases d with
    | typ t =>
      cases hc : converter_of t qn with
      | true =>
        have ht : t = T := huniq t (by simp) hc
        rw [get_deps_step_typ_pos qn (ks, df) t hc, ht]
        exact get_deps_go_def_keepT qn T rest ks
          (fun T' h1 h2 => huniq T' (List.mem_cons.mpr (Or.inr h1)) h2)
      | false =>
        have hmem' : DbObj.typ T ∈ rest := by
          rcases List.mem_cons.mp hmem with h | h
          · have hTt : T = t := by simpa using h
            rw [hTt] at hT; rw [hT] at hc; cases hc
          · exact h
        rw [get_deps_step_typ_neg qn (ks, df) t hc]
        exact ih (ks ++ [DbObj.typ t]) df T hmem' hT
          (fun T' h1 h2 => huniq T' (List.mem_cons.mpr (Or.inr h1)) h2)
    | other k =>
      have hmem' : DbObj.typ T ∈ rest := by
        rcases List.mem_cons.mp hmem with h | h
        · simp at h
        · exact h
      rw [get_deps_step_other qn (ks, df) k]
      exact ih (ks ++ [DbObj.other k]) df T hmem' hT
        (fun T' h1 h2 => huniq T' (List.mem_cons.mpr (Or.inr h1)) h2)

/-- C2.  `Function.get_deps` removes from the dependency set every type
that designates this routine as one of its `input`/`output`/`send`/
`receive` converters and marks the routine as defining such a type
(`_defining`); dependencies on types that do not designate the routine,
and non-type dependencies, are kept.  When a single type designates the
routine, `_defining` is exactly that type. -/
theorem claim2_get_deps_converter (f : Func) (deps : List DbObj) :
    (∀ T : PgType, DbObj.typ T ∈ deps → converter_of T f.qualnameF = true →
      DbObj.typ T ∉ (f.get_deps deps).1) ∧
    (∀ d : DbObj, d ∈ deps →
      (∀ T : PgType, d = DbObj.typ T → converter_of T f.qualnameF = false) →
      d ∈ (f.get_deps deps).1) ∧
    (∀ T : PgType, DbObj.typ T ∈ deps → converter_of T f.qualnameF = true →
      ∃ T', (f.get_deps deps).2 = some T' ∧ converter_of T' f.qualnameF = true) ∧
    (∀ T : PgType, DbObj.typ T ∈ deps → converter_of T f.qualnameF = true →
      (∀ T' : PgType, DbObj.typ T' ∈ deps → converter_of T' f.qualnameF = true → T' = T) →
      (f.get_deps deps).2 = some T) := by
  refine ⟨?_, ?_, ?_, ?_⟩
  · intro T hmem hT
    exact get_deps_go_not_mem f.qualnameF deps [] f.defining T hT (by simp)
  · intro d hmem hkeep
    exact get_deps_go_mem_of_kept f.qualnameF deps [] f.defining d hmem hkeep
  · intro T hmem hT
    exact get_deps_go_def_some f.qualnameF deps [] f.defining T hmem hT
  · intro T hmem hT huniq
    exact get_deps_go_def_unique f.qualnameF deps [] f.defining T hmem hT huniq

/-- Witness for C2 at a concrete input: a function `public.f`, a
dependency set holding the type it converts for, a neutral type and a
language object.  The converting type is removed and recorded, the other
two dependencies are kept. -/
theorem claim2_get_deps_converter_witness :
    (DbObj.typ { schema := "public", name := "t", input := some "public.f" } ∉
      (Func.get_deps { schema := "public", name := "f", arguments := "" }
        [DbObj.typ { schema := "public", name := "t", input := some "public.f" },
         DbObj.typ { schema := "public", name := "u" },
         DbObj.other "language sql"]).1) ∧
    (DbObj.other "language sql" ∈
      (Func.get_deps { schema := "public", name := "f", arguments := "" }
        [DbObj.typ { schema := "public", name := "t", input := some "public.f" },
         DbObj.typ { schema := "public", name := "u" },
         DbObj.other "language sql"]).1) ∧
    (Func.get_deps { schema := "public", name := "f", arguments := "" }
        [DbObj.typ { schema := "public", name := "t", input := some "public.f" },
         DbObj.typ { schema := "public", name := "u" },
         DbObj.other "language sql"]).2 =
      some { schema := "public", name := "t", input := some "public.f" } := by
  refine ⟨?_, ?_, ?_⟩
  · exact (claim2_get_deps_converter
      { schema := "public", name := "f", arguments := "" } _).1 _ (by decide) (by decide)
  · exact (claim2_get_deps_converter
      { schema := "public", name := "f", arguments := "" } _).2.1 _ (by decide)
      (by intro T hT; cases hT)
  · refine (claim2_get_deps_converter
      { schema := "public", name := "f", arguments := "" } _).2.2.2 _ (by decide)
      (by decide) ?_
    intro T' h1 h2
    have h1' : T' = { schema := "public", name := "t", input := some "public.f" } ∨
        T' = ({ schema := "public", name := "u" } : PgType) := by
      simpa using h1
    rcases h1' with h | h
    · exact h
    · subst h
      exact absurd h2 (by decide)

/-- C3.  A function marked as defining a type generates no independent
drop statement; a function not so marked delegates to the ordinary
drop behaviour. -/
theorem claim3_drop_defining (f : Func) :
    (∀ T : PgType, f.defining = some T → f.drop = []) ∧
    (f.defining = none → f.drop = dropBase f) := by
  constructor
  · intro T hT
    simp [Func.drop, hT]
  · intro h
    simp [Func.drop, h]

/-- Witness for C3 at concrete inputs: a converter function for type
`public.t` drops to nothing; the same function without the marker emits
the ordinary `DROP FUNCTION`. -/
theorem claim3_drop_defining_witness :
    Func.drop { schema := "public", name := "f", arguments := "",
                defining := some { schema := "public", name := "t" } } = [] ∧
    Func.drop { schema := "public", name := "f", arguments := "" } =
      dropBase { schema := "public", name := "f", arguments := "" } := by
  constructor
  · exact (claim3_drop_defining _).1 { schema := "public", name := "t" } rfl
  · exact (claim3_drop_defining _).2 rfl

/-! ### C6: default suppression of cost and rows -/

/-- C6.  For a function whose `cost` attribute is present and non-zero,
`Function.to_map` omits the `cost` entry exactly when the cost equals
the language-dependent default (1 for `c`/`internal`, 100 otherwise),
and `Function.create` emits a `COST` clause exactly in the complementary
cases; a present, non-zero `rows` attribute equal to 1000 is omitted
from the map and produces no `ROWS` clause. -/
theorem claim6_cost_rows_defaults (f : Func) (c : Nat)
    (hc : f.cost = some c) (h0 : c ≠ 0) :
    ((f.to_map.cost = none) ↔
      ((c = 1 ∧ native_lang f.language = true) ∨
       (c = 100 ∧ native_lang f.language = false))) ∧
    ((f.costClause ≠ "") ↔
      ¬ ((c = 1 ∧ native_lang f.language = true) ∨
         (c = 100 ∧ native_lang f.language = false))) ∧
    (∀ r : Nat, f.rows = some r → r ≠ 0 → r = 1000 →
      f.to_map.rows = none ∧ f.rowsClause = "") := by
  have hne : ∀ (n : Nat), (" COST " ++ toString n) ≠ "" := by
    intro n h
    have h2 := congrArg String.data h
    rw [String.data_append] at h2
    simp at h2
  refine ⟨?_, ?_, ?_⟩
  · cases hl : native_lang f.language with
    | true =>
      constructor
      · intro h
        by_cases h1 : c = 1
        · exact Or.inl ⟨h1, rfl⟩
        · exfalso
          simp only [Func.to_map] at h
          simp only [hc, h0, hl, h1] at h
          simp at h
      · rintro (⟨h1, _⟩ | ⟨_, hbad⟩)
        · simp only [Func.to_map]
          simp [hc, h0, hl, h1]
        · exact absurd hbad (by simp [hl])
    | false =>
      constructor
      · intro h
        by_cases h1 : c = 100
        · exact Or.inr ⟨h1, rfl⟩
        · exfalso
          simp only [Func.to_map] at h
          simp only [hc, h0, hl, h1] at h
          simp at h
      · rintro (⟨_, hbad⟩ | ⟨h1, _⟩)
        · exact absurd hbad (by simp [hl])
        · simp only [Func.to_map]
          simp [hc, h0, hl, h1]
  · cases hl : native_lang f.language with
    | true =>
      constructor
      · intro h hdef
        rcases hdef with ⟨h1, _⟩ | ⟨_, hbad⟩
        · rw [Func.costClause, hc] at h
          simp only [h0, hl, h1] at h
          simp at h
        · exact absurd hbad (by simp [hl])
      · intro h
        by_cases h1 : c = 1
        · exact absurd (Or.inl ⟨h1, rfl⟩) h
        · rw [Func.costClause, hc]
          simp only [h0, hl, h1, if_true, if_false, ite_not]
          simpa using hne c
    | false =>
      constructor
      · intro h hdef
        rcases hdef with ⟨_, hbad⟩ | ⟨h1, _⟩
        · exact absurd hbad (by simp [hl])
        · rw [Func.costClause, hc] at h
          simp only [h0, hl, h1] at h
          simp at h
      · intro h
        by_cases h1 : c = 100
        · exact absurd (Or.inr ⟨h1, rfl⟩) h
        · rw [Func.costClause, hc]
          simp only [h0, hl, h1, if_true, if_false, ite_not]
          simpa using hne c
  · intro r hr h0r h1000
    constructor
    · simp only [Func.to_map]
      simp [hr, h0r, h1000]
    · rw [Func.rowsClause, hr]
      simp [h0r, h1000]

/-- Witness for C6 at concrete inputs: an `sql` function with cost 100
and rows 1000 omits both entries and both clauses; the same cost on a
`c` function is kept and rendered. -/
theorem claim6_cost_rows_defaults_witness :
    (fSql100.to_map.cost = none) ∧
    (fSql100.costClause = "") ∧
    (fSql100.to_map.rows = none) ∧
    (fSql100.rowsClause = "") ∧
    (fC100.to_map.cost = some 100) ∧
    (fC100.costClause ≠ "") := by
  refine ⟨?_, ?_, ?_, ?_, ?_, ?_⟩
  · exact (claim6_cost_rows_defaults fSql100 100 rfl (by decide)).1.mpr
      (Or.inr ⟨rfl, by decide⟩)
  · have h := (claim6_cost_rows_defaults fSql100 100 rfl (by decide)).2.1
    by_contra hne
    exact (h.mp hne) (Or.inr ⟨rfl, by decide⟩)
  · exact ((claim6_cost_rows_defaults fSql100 100 rfl (by decide)).2.2 1000 rfl
      (by decide) rfl).1
  · exact ((claim6_cost_rows_defaults fSql100 100 rfl (by decide)).2.2 1000 rfl
      (by decide) rfl).2
  · by_contra hne
    have h := (claim6_cost_rows_defaults fC100 100 rfl (by decide)).1
    have h2 : (100 = 1 ∧ native_lang "c" = true) ∨
        (100 = 100 ∧ native_lang "c" = false) := by
      apply h.mp
      revert hne
      decide
    rcases h2 with ⟨h1, _⟩ | ⟨_, h3⟩
    · cases h1
    · exact absurd h3 (by decide)
  · exact (claim6_cost_rows_defaults fC100 100 rfl (by decide)).2.1.mpr (by
      rintro (⟨h1, _⟩ | ⟨_, h2⟩)
      · cases h1
      · exact absurd h2 (by decide))

/-! ### String-prefix lemmas for statement shapes -/

theorem stringAppend_ne (a b x y : String) (n : Nat)
    (ha : n < a.data.length) (hb : n < b.data.length)
    (h : a.data[n]? ≠ b.data[n]?) : a ++ x ≠ b ++ y := by
  intro he
  apply h
  have hd := congrArg String.data he
  rw [String.data_append, String.data_append] at hd
  have h1 : (a.data ++ x.data)[n]? = a.data[n]? := List.getElem?_append_left ha
  have h2 : (b.data ++ y.data)[n]? = b.data[n]? := List.getElem?_append_left hb
  rw [← h1, ← h2, hd]

theorem strStarts_append_false (lit x pat : String)
    (hlen : pat.data.length ≤ lit.data.length)
    (h : lit.data.take pat.data.length ≠ pat.data) :
    strStarts (lit ++ x) pat = false := by
  have hnp : ¬ pat.data <+: (lit.data ++ x.data) := by
    intro hp
    apply h
    have h2 := List.prefix_iff_eq_take.mp hp
    rw [List.take_append_of_le_length hlen] at h2
    exact h2.symm
  show pat.data.isPrefixOf (lit ++ x).data = false
  rw [String.data_append]
  exact Bool.eq_false_iff.mpr (fun hb => hnp (List.isPrefixOf_iff_prefix.mp hb))

/-! ### C4: the shell type statement is emitted exactly once -/

theorem mainStmt_none_eq (f : Func) :
    f.mainStmt none = "CREATE FUNCTION " ++ (f.qualnameF ++ ("(" ++
      (f.allargs.getD f.arguments ++ (") RETURNS " ++ (f.returns ++
      ("\n    LANGUAGE " ++ (f.language ++ (f.volatClause ++
      (f.leakproofClause ++ (f.strictClause ++ (f.secdefClause ++
      (f.costClause ++ (f.rowsClause ++ (f.configClause ++
      ("\n    AS " ++ f.srcClause none))))))))))))))) := rfl

theorem mainStmt_ne_shell (f : Func) (tq : String) :
    f.mainStmt none ≠ "CREATE TYPE " ++ tq := by
  rw [mainStmt_none_eq f]
  exact stringAppend_ne "CREATE FUNCTION " "CREATE TYPE " _ tq 7
    (by decide) (by decide) (by decide)

theorem createSeq_shelled (T : PgType) :
    ∀ (fs : List Func) (st : List String),
      (∀ g ∈ fs, g.defining = some T) → T.qualnameT ∈ st →
      createSeq fs st = (fs.map (fun g => g.mainStmt none), st) := by
  intro fs
  induction fs with
  | nil => intro st _ _; rfl
  | cons f rest ih =>
    intro st hdef hst
    have hf : f.defining = some T := hdef f (by simp)
    have h1 : f.create none st = ([f.mainStmt none], st) := by
      simp [Func.create, hf, hst]
    have h2 := ih st (fun g hg => hdef g (List.mem_cons.mpr (Or.inr hg))) hst
    simp [createSeq, h1, h2]

/-- C4.  In a sequence of `Function.create` calls on routines all
defining the same type `T` whose shell has not been created yet, the
statement `CREATE TYPE <T>` is emitted exactly once: by the first call,
immediately before that routine's `CREATE FUNCTION` statement, and never
again among the statements of the later calls. -/
theorem claim4_shell_once (T : PgType) (f : Func) (rest : List Func)
    (st : List String) (hf : f.defining = some T)
    (hrest : ∀ g ∈ rest, g.defining = some T)
    (hst : T.qualnameT ∉ st) :
    (createSeq (f :: rest) st).1 =
      ("CREATE TYPE " ++ T.qualnameT) :: f.mainStmt none ::
        rest.map (fun g => g.mainStmt none) ∧
    ("CREATE TYPE " ++ T.qualnameT) ∉
      f.mainStmt none :: rest.map (fun g => g.mainStmt none) := by
  have h1 : f.create none st =
      (("CREATE TYPE " ++ T.qualnameT) :: [f.mainStmt none],
        T.qualnameT :: st) := by
    simp [Func.create, hf, hst]
  have h2 : createSeq rest (T.qualnameT :: st) =
      (rest.map (fun g => g.mainStmt none), T.qualnameT :: st) :=
    createSeq_shelled T rest _ hrest (by simp)
  constructor
  · simp [createSeq, h1, h2]
  · intro hmem
    rcases List.mem_cons.mp hmem with h | h
    · exact mainStmt_ne_shell f T.qualnameT h.symm
    · rcases List.mem_map.mp h with ⟨g, _, hg⟩
      exact mainStmt_ne_shell g T.qualnameT hg

/-- Witness for C4 at a concrete input: two routines defining
`public.ty`, created in sequence from a fresh state. -/
theorem claim4_shell_once_witness :
    (createSeq [fDef1, fDef2] []).1 =
      ("CREATE TYPE " ++ tShell.qualnameT) :: fDef1.mainStmt none ::
        [fDef2.mainStmt none] ∧
    ("CREATE TYPE " ++ tShell.qualnameT) ∉
      fDef1.mainStmt none :: [fDef2.mainStmt none] := by
  have h := claim4_shell_once tShell fDef1 [fDef2] [] rfl
    (by intro g hg; simp at hg; subst hg; rfl) (by simp)
  simpa using h

/-! ### C1: diffing a state against itself -/

/-- Counterexample to C1 as stated: two EQUAL functions whose shared
`leakproof` flag is `True`.  `Function.alter` emits a redundant
`ALTER FUNCTION ... LEAKPROOF` statement (the both-`True` branch at
function.py lines 165-168), so the plan of a state against itself is
not empty. -/
theorem claim1_counterexample :
    Func.alter fLeak fLeak [] =
      (["ALTER FUNCTION public.f() LEAKPROOF"], []) ∧
    Func.alter fLeak fLeak [] ≠ ([], []) := by
  constructor
  · decide
  · decide

theorem eqAsSets_refl (l : List String) : eqAsSets l l = true := by
  simp only [eqAsSets, List.all_eq_true, Bool.and_eq_true]
  constructor <;> · intro x hx; exact List.elem_eq_true_of_mem hx

theorem trigger_same_refl (t : Trigger) : t.same t = true := by
  simp [Trigger.same, Trigger.attrsEq, eqAsSets_refl]

/-- C1 (amended).  Diffing an object against itself yields no statement,
EXCEPT for a function whose `leakproof` flag is `True`, where the code
emits a redundant `ALTER FUNCTION ... LEAKPROOF` (see the
counterexample): for every function whose `leakproof` flag is not
`True`, `Function.alter` against itself emits nothing and leaves the
shell state unchanged; for EVERY function whose `leakproof` flag is
`True`, `Function.alter` against itself emits exactly the one redundant
`ALTER FUNCTION ... LEAKPROOF` statement; for every trigger,
`Trigger.diff_map` against itself emits nothing (in particular no
`DROP TRIGGER` and no `CREATE TRIGGER`). -/
theorem claim1_idempotent_amended :
    (∀ (f : Func) (st : List String), f.leakproof ≠ some true →
      Func.alter f f st = ([], st)) ∧
    (∀ (f : Func) (st : List String), f.leakproof = some true →
      Func.alter f f st =
        (["ALTER FUNCTION " ++ f.identifier ++ " LEAKPROOF"], st)) ∧
    (∀ t : Trigger, Trigger.diff_map t t = []) := by
  refine ⟨?_, ?_, ?_⟩
  · intro f st h
    cases hsrc : f.source with
    | none => simp [Func.alter, alterBase, hsrc, h]
    | some s => simp [Func.alter, alterBase, hsrc, h]
  · intro f st h
    cases hsrc : f.source with
    | none => simp [Func.alter, alterBase, hsrc, h]
    | some s => simp [Func.alter, alterBase, hsrc, h]
  · intro t
    have hsame := trigger_same_refl t
    simp [Trigger.diff_map, hsame, Trigger.diff_privileges,
      Trigger.diff_description, Trigger.applyDiff]

/-- Witness for C1 (amended) at concrete inputs: a plain equal function
pair and an equal trigger pair produce no statements; an equal
`leakproof=True` pair produces exactly the one redundant statement. -/
theorem claim1_idempotent_amended_witness :
    Func.alter fPlain fPlain [] = ([], []) ∧
    Func.alter fLeak fLeak [] =
      (["ALTER FUNCTION " ++ fLeak.identifier ++ " LEAKPROOF"], []) ∧
    Trigger.diff_map trgPlain trgPlain = [] := by
  refine ⟨?_, ?_, ?_⟩
  · exact claim1_idempotent_amended.1 fPlain [] (by decide)
  · exact claim1_idempotent_amended.2.1 fLeak [] rfl
  · exact claim1_idempotent_amended.2.2 trgPlain

/-! ### C5: trigger changes force drop-and-recreate -/

theorem trigger_create_shape (t : Trigger) :
    ∃ x, t.create = ["CREATE " ++ x] := ⟨_, rfl⟩

theorem trigger_diff_description_shape (t intrg : Trigger) :
    ∀ s ∈ t.diff_description intrg, ∃ x, s = "COMMENT ON TRIGGER " ++ x := by
  intro s hs
  rw [Trigger.diff_description] at hs
  split at hs
  · rcases List.mem_singleton.mp hs with rfl
    exact ⟨_, rfl⟩
  · simp at hs

/-- C5.  When an observed/desired trigger pair differs in any of the
eight compared attributes or in its event sets (`same = false`),
`Trigger.diff_map` emits the `DROP TRIGGER` statement followed by the
full `CREATE TRIGGER` statement (rendered from the updated trigger),
then only privilege/description statements; it never emits an `ALTER`
statement. -/
theorem claim5_trigger_drop_create (t intrg : Trigger)
    (h : t.same intrg = false) :
    t.diff_map intrg =
      ("DROP TRIGGER " ++ (t.applyDiff intrg).identifier) ::
        (t.applyDiff intrg).create ++
        ((t.applyDiff intrg).diff_privileges intrg ++
          (t.applyDiff intrg).diff_description intrg) ∧
    (∀ s ∈ t.diff_map intrg, strStarts s "ALTER" = false) := by
  have heq : t.diff_map intrg =
      ("DROP TRIGGER " ++ (t.applyDiff intrg).identifier) ::
        (t.applyDiff intrg).create ++
        ((t.applyDiff intrg).diff_privileges intrg ++
          (t.applyDiff intrg).diff_description intrg) := by
    simp [Trigger.diff_map, h]
  refine ⟨heq, ?_⟩
  intro s hs
  rw [heq] at hs
  rcases List.mem_cons.mp hs with rfl | hs
  · exact strStarts_append_false "DROP TRIGGER " _ "ALTER" (by decide) (by decide)
  · rcases List.mem_append.mp hs with hs | hs
    · obtain ⟨x, hx⟩ := trigger_create_shape (t.applyDiff intrg)
      rw [hx] at hs
      rcases List.mem_singleton.mp hs with rfl
      exact strStarts_append_false "CREATE " _ "ALTER" (by decide) (by decide)
    · rcases List.mem_append.mp hs with hs | hs
      · simp [Trigger.diff_privileges] at hs
      · obtain ⟨x, hx⟩ := trigger_diff_description_shape _ _ s hs
        rw [hx]
        exact strStarts_append_false "COMMENT ON TRIGGER " _ "ALTER"
          (by decide) (by decide)

/-- Witness for C5 at a concrete input: the executed procedure of a
trigger changed, so the plan is `DROP TRIGGER` + `CREATE TRIGGER` and
contains no `ALTER` statement. -/
theorem claim5_trigger_drop_create_witness :
    Trigger.diff_map trgOld trgNew =
      ("DROP TRIGGER " ++ (trgOld.applyDiff trgNew).identifier) ::
        (trgOld.applyDiff trgNew).create ++
        ((trgOld.applyDiff trgNew).diff_privileges trgNew ++
          (trgOld.applyDiff trgNew).diff_description trgNew) ∧
    (∀ s ∈ Trigger.diff_map trgOld trgNew, strStarts s "ALTER" = false) :=
  claim5_trigger_drop_create trgOld trgNew (by decide)

/-! ### C10: trigger events are compared as sets -/

/-- C10.  When the eight compared attributes agree and the two event
lists contain the same names (as sets, in any order), `Trigger.diff_map`
computes `same = true` and emits neither a `DROP TRIGGER` nor a
`CREATE TRIGGER` statement — only privilege/description statements
remain possible.  Reordering the event list alone never produces a
difference. -/
theorem claim10_events_as_sets (t intrg : Trigger)
    (hattrs : t.attrsEq intrg = true)
    (hev : eqAsSets t.events intrg.events = true) :
    t.same intrg = true ∧
    t.diff_map intrg =
      (t.applyDiff intrg).diff_privileges intrg ++
        (t.applyDiff intrg).diff_description intrg ∧
    (∀ s ∈ t.diff_map intrg,
      strStarts s "DROP TRIGGER" = false ∧ strStarts s "CREATE" = false) := by
  have hsame : t.same intrg = true := by
    simp [Trigger.same, hattrs, hev]
  have heq : t.diff_map intrg =
      (t.applyDiff intrg).diff_privileges intrg ++
        (t.applyDiff intrg).diff_description intrg := by
    simp [Trigger.diff_map, hsame]
  refine ⟨hsame, heq, ?_⟩
  intro s hs
  rw [heq] at hs
  rcases List.mem_append.mp hs with hs | hs
  · simp [Trigger.diff_privileges] at hs
  · obtain ⟨x, hx⟩ := trigger_diff_description_shape _ _ s hs
    rw [hx]
    constructor
    · exact strStarts_append_false "COMMENT ON TRIGGER " _ "DROP TRIGGER"
        (by decide) (by decide)
    · exact strStarts_append_false "COMMENT ON TRIGGER " _ "CREATE"
        (by decide) (by decide)

/-- Witness for C10 at a concrete input: the same three events in two
different orders, all other attributes equal. -/
theorem claim10_events_as_sets_witness :
    trgEvA.same trgEvB = true ∧
    Trigger.diff_map trgEvA trgEvB =
      (trgEvA.applyDiff trgEvB).diff_privileges trgEvB ++
        (trgEvA.applyDiff trgEvB).diff_description trgEvB ∧
    (∀ s ∈ Trigger.diff_map trgEvA trgEvB,
      strStarts s "DROP TRIGGER" = false ∧ strStarts s "CREATE" = false) :=
  claim10_events_as_sets trgEvA trgEvB (by decide) (by decide)

/-! ### C8: implied dependencies of a trigger -/

/-- Counterexample to C8 as stated: an augmentation trigger (`_iscfg`
marker set) executing the ordinary procedure `foo()`.  Although the
procedure name does not start with `tsvector_update_trigger`, the
routine dependency is NOT recorded (the `_iscfg` short-circuit at
trigger.py lines 106-108), refuting the claimed "if and only if". -/
theorem claim8_counterexample :
    ¬ ((DepRef.fn "public" "foo()" "" ∈ trgCfg.get_implied_deps) ↔
      strStarts "foo()" "tsvector_update_trigger" = false) := by
  decide

/-- C8 (amended).  `Trigger.get_implied_deps` always includes the table
the trigger is defined on.  For a trigger NOT carrying the `_iscfg`
augmentation marker, it additionally includes the executed routine
(looked up with an empty argument signature) if and only if the
routine's unqualified name does not start with
`tsvector_update_trigger`; for an `_iscfg` trigger, only the table
dependency is recorded. -/
theorem claim8_trigger_deps_amended (t : Trigger) :
    (DepRef.tbl t.schema t.table ∈ t.get_implied_deps) ∧
    (t.iscfg = false →
      ((DepRef.fn (split_schema_obj t.procedure t.schema).1
          (split_schema_obj t.procedure t.schema).2 "" ∈ t.get_implied_deps) ↔
        strStarts (split_schema_obj t.procedure t.schema).2
          "tsvector_update_trigger" = false)) ∧
    (t.iscfg = true → t.get_implied_deps = [DepRef.tbl t.schema t.table]) := by
  refine ⟨?_, ?_, ?_⟩
  · rw [Trigger.get_implied_deps]
    cases hc : t.iscfg with
    | true => simp
    | false =>
      cases hts : strStarts (split_schema_obj t.procedure t.schema).2
          "tsvector_update_trigger" with
      | true => simp [hts]
      | false => simp [hts]
  · intro hc
    rw [Trigger.get_implied_deps]
    cases hts : strStarts (split_schema_obj t.procedure t.schema).2
        "tsvector_update_trigger" with
    | true => simp [hc, hts]
    | false => simp [hc, hts]
  · intro hc
    simp [Trigger.get_implied_deps, hc]

/-- Witness for C8 (amended) at concrete inputs: an ordinary trigger
records the table and the routine; a tsvector-helper trigger records no
routine; an augmentation trigger records only the table. -/
theorem claim8_trigger_deps_amended_witness :
    (DepRef.tbl "public" "t1" ∈ trgUser.get_implied_deps) ∧
    (DepRef.fn "public" "foo()" "" ∈ trgUser.get_implied_deps) ∧
    (DepRef.fn "public" "tsvector_update_trigger(tsv, myconfig, title)" ""
      ∉ trgTsv.get_implied_deps) ∧
    trgCfg.get_implied_deps = [DepRef.tbl "public" "t1"] := by
  refine ⟨?_, ?_, ?_, ?_⟩
  · exact (claim8_trigger_deps_amended trgUser).1
  · exact ((claim8_trigger_deps_amended trgUser).2.1 rfl).mpr (by decide)
  · intro hmem
    exact absurd (((claim8_trigger_deps_amended trgTsv).2.1 rfl).mp hmem)
      (by decide)
  · exact (claim8_trigger_deps_amended trgCfg).2.2 rfl

/-! ### Parsing lemmas for `from_map` (claims C7 and C9) -/

theorem charIndex_some_of_mem (c : Char) :
    ∀ (l : List Char), c ∈ l → ∃ p, charIndex c l = some p := by
  intro l
  induction l with
  | nil => intro h; simp at h
  | cons x xs ih =>
    intro h
    by_cases hx : x = c
    · exact ⟨0, by simp [charIndex, hx]⟩
    · have hcm : c ∈ xs := by
        rcases List.mem_cons.mp h with h1 | h1
        · exact absurd h1.symm hx
        · exact h1
      obtain ⟨p, hp⟩ := ih hcm
      exact ⟨p + 1, by simp [charIndex, hx, hp]⟩

theorem fnc_data_eq (n a : String) :
    (n ++ ("(" ++ (a ++ ")"))).data = n.data ++ ('(' :: (a.data ++ [')'])) := rfl

theorem getLast?_append_singleton (l : List Char) (x : Char) :
    (l ++ [x]).getLast? = some x := by simp

theorem fnc_last (n a : String) :
    (n ++ ("(" ++ (a ++ ")"))).data.getLast? = some ')' := by
  rw [fnc_data_eq]
  rw [show n.data ++ ('(' :: (a.data ++ [')'])) =
    (n.data ++ ('(' :: a.data)) ++ [')'] by simp]
  exact getLast?_append_singleton _ _

theorem key_assoc_function (n a : String) :
    "function " ++ n ++ "(" ++ a ++ ")" =
      "function " ++ (n ++ ("(" ++ (a ++ ")"))) := by
  simp [String.append_assoc]

theorem key_assoc_aggregate (n a : String) :
    "aggregate " ++ n ++ "(" ++ a ++ ")" =
      "aggregate " ++ (n ++ ("(" ++ (a ++ ")"))) := by
  simp [String.append_assoc]

theorem pyPartitionChar_function (r : String) :
    pyPartitionChar ("function " ++ r) ' ' = ("function", " ", r) := rfl

theorem pyPartitionChar_aggregate (r : String) :
    pyPartitionChar ("aggregate " ++ r) ' ' = ("aggregate", " ", r) := rfl

theorem exclusive_iff (o1 o2 : Option String) :
    ((o1.isSome ∧ o2.isSome) ∨ (o1 = none ∧ o2 = none)) ↔
      (o1.isSome = o2.isSome) := by
  cases o1 <;> cases o2 <;> simp

theorem from_map_entry_function_eval (sch n a : String) (i : InFunc) :
    ∃ fname args : String,
      ProcDict.from_map_entry sch ("function " ++ (n ++ ("(" ++ (a ++ ")")))) i =
        (if i.isEmpty then
          Except.error (LoadErr.valueError
            ("Function " ++ fname ++ " has no specification"))
        else if (i.source.isSome ∧ i.obj_file.isSome) ∨
            (i.source = none ∧ i.obj_file = none) then
          Except.error (LoadErr.valueError
            ("Function " ++ fname ++ ": either source or obj_file must be specified"))
        else Except.ok
          { kind := ProcKind.function, schema := sch, name := fname,
            arguments := args,
            language := (match i.language with | some l => l | none => ""),
            source := i.source, obj_file := i.obj_file,
            volatility := i.volatility.map (fun v => lowerChar (v.data.headD ' ')) }) := by
  obtain ⟨p, hp⟩ := charIndex_some_of_mem '('
    ((n ++ ("(" ++ (a ++ ")"))).data)
    (by rw [fnc_data_eq]; exact List.mem_append.mpr (Or.inr (by simp)))
  refine ⟨⟨(n ++ ("(" ++ (a ++ ")"))).data.take p⟩,
    ⟨((n ++ ("(" ++ (a ++ ")"))).data.drop (p + 1)).dropLast⟩, ?_⟩
  simp only [ProcDict.from_map_entry, pyPartitionChar_function]
  rw [if_neg (by decide :
    ¬((" " : String) ≠ " " ∨
      (("function" : String) ≠ "function" ∧ ("function" : String) ≠ "aggregate")))]
  simp only [hp]
  rw [if_neg (show ¬((n ++ ("(" ++ (a ++ ")"))).data.getLast? ≠ some ')') from
    fun hcon => hcon (fnc_last n a))]
  by_cases hemp : i.isEmpty
  · simp [hemp]
  · by_cases hx : (i.source.isSome ∧ i.obj_file.isSome) ∨
        (i.source = none ∧ i.obj_file = none)
    · simp [hemp, hx]
    · simp [hemp, hx]

theorem from_map_entry_aggregate_eval (sch n a : String) (i : InFunc) :
    ∃ fname args : String,
      ProcDict.from_map_entry sch ("aggregate " ++ (n ++ ("(" ++ (a ++ ")")))) i =
        (if i.isEmpty then
          Except.error (LoadErr.valueError
            ("Function " ++ fname ++ " has no specification"))
        else Except.ok
          { kind := ProcKind.aggregate, schema := sch, name := fname,
            arguments := args,
            language := (match i.language with | some l => l | none => "internal"),
            source := i.source, obj_file := i.obj_file,
            volatility := i.volatility.map (fun v => lowerChar (v.data.headD ' ')) }) := by
  obtain ⟨p, hp⟩ := charIndex_some_of_mem '('
    ((n ++ ("(" ++ (a ++ ")"))).data)
    (by rw [fnc_data_eq]; exact List.mem_append.mpr (Or.inr (by simp)))
  refine ⟨⟨(n ++ ("(" ++ (a ++ ")"))).data.take p⟩,
    ⟨((n ++ ("(" ++ (a ++ ")"))).data.drop (p + 1)).dropLast⟩, ?_⟩
  simp only [ProcDict.from_map_entry, pyPartitionChar_aggregate]
  rw [if_neg (by decide :
    ¬((" " : String) ≠ " " ∨
      (("aggregate" : String) ≠ "function" ∧ ("aggregate" : String) ≠ "aggregate")))]
  simp only [hp]
  rw [if_neg (show ¬((n ++ ("(" ++ (a ++ ")"))).data.getLast? ≠ some ')') from
    fun hcon => hcon (fnc_last n a))]
  by_cases hemp : i.isEmpty
  · simp [hemp]
  · simp [hemp]

/-- C7.  For a desired-state entry whose key names a function, with a
non-empty specification, loading raises a `ValueError` exactly when
`source` and `obj_file` are both given or both missing; specifying
exactly one of them succeeds; entries whose key names an aggregate are
exempt from the check and always load. -/
theorem claim7_source_objfile_exclusive (sch n a : String) (i : InFunc)
    (hne : i.isEmpty = false) :
    ((∃ msg, ProcDict.from_map_entry sch
        ("function " ++ n ++ "(" ++ a ++ ")") i =
        Except.error (LoadErr.valueError msg)) ↔
      (i.source.isSome = i.obj_file.isSome)) ∧
    (i.source.isSome ≠ i.obj_file.isSome →
      ∃ f, ProcDict.from_map_entry sch
        ("function " ++ n ++ "(" ++ a ++ ")") i = Except.ok f) ∧
    (∀ i' : InFunc, i'.isEmpty = false →
      ∃ f, ProcDict.from_map_entry sch
        ("aggregate " ++ n ++ "(" ++ a ++ ")") i' = Except.ok f) := by
  obtain ⟨fname, args, heval⟩ := from_map_entry_function_eval sch n a i
  refine ⟨?_, ?_, ?_⟩
  · rw [key_assoc_function, heval]
    simp only [hne, Bool.false_eq_true, if_false]
    by_cases hx : (i.source.isSome ∧ i.obj_file.isSome) ∨
        (i.source = none ∧ i.obj_file = none)
    · constructor
      · intro _; exact (exclusive_iff _ _).mp hx
      · intro _; simp [hx]
    · constructor
      · intro hex
        rw [if_neg hx] at hex
        obtain ⟨msg, hmsg⟩ := hex
        cases hmsg
      · intro hs
        exact absurd ((exclusive_iff _ _).mpr hs) hx
  · intro hs
    rw [key_assoc_function, heval]
    have hx : ¬((i.source.isSome ∧ i.obj_file.isSome) ∨
        (i.source = none ∧ i.obj_file = none)) :=
      fun hcon => hs ((exclusive_iff _ _).mp hcon)
    simp [hne, hx]
  · intro i' hne'
    obtain ⟨fname', args', heval'⟩ := from_map_entry_aggregate_eval sch n a i'
    rw [key_assoc_aggregate, heval']
    simp [hne']

/-- Witness for C7 at concrete inputs: an entry with only `source`
loads; an entry with both `source` and `obj_file` raises a
`ValueError`; an entry with neither (only a language) raises a
`ValueError`; an aggregate entry with neither loads. -/
theorem claim7_source_objfile_exclusive_witness :
    (∃ f, ProcDict.from_map_entry "public" ("function " ++ "mix" ++ "(" ++ "" ++ ")")
        inSrcOnly = Except.ok f) ∧
    (∃ msg, ProcDict.from_map_entry "public" ("function " ++ "mix" ++ "(" ++ "" ++ ")")
        inBoth = Except.error (LoadErr.valueError msg)) ∧
    (∃ msg, ProcDict.from_map_entry "public" ("function " ++ "mix" ++ "(" ++ "" ++ ")")
        inLangOnly = Except.error (LoadErr.valueError msg)) ∧
    (∃ f, ProcDict.from_map_entry "public" ("aggregate " ++ "mix" ++ "(" ++ "" ++ ")")
        inLangOnly = Except.ok f) := by
  refine ⟨?_, ?_, ?_, ?_⟩
  · exact (claim7_source_objfile_exclusive "public" "mix" "" inSrcOnly rfl).2.1
      (by decide)
  · exact (claim7_source_objfile_exclusive "public" "mix" "" inBoth rfl).1.mpr
      (by decide)
  · exact (claim7_source_objfile_exclusive "public" "mix" "" inLangOnly rfl).1.mpr
      (by decide)
  · exact (claim7_source_objfile_exclusive "public" "mix" "" inLangOnly rfl).2.2
      inLangOnly rfl

/-! ### C9: external keys round-trip (parsing lemmas) -/

theorem dropWhile_head_false (p : Char → Bool) :
    ∀ (l : List Char) (x : Char) (xs : List Char),
      l.dropWhile p = x :: xs → p x = false := by
  intro l
  induction l with
  | nil => intro x xs h; simp [List.dropWhile] at h
  | cons y ys ih =>
    intro x xs h
    rw [List.dropWhile_cons] at h
    by_cases hy : p y
    · rw [if_pos hy] at h
      exact ih x xs h
    · rw [if_neg hy] at h
      have hxy : y = x := (List.cons.injEq _ _ _ _ ▸ h).1
      rw [← hxy]
      exact Bool.eq_false_iff.mpr hy

theorem partitionChar_concat_data (p : Char → Bool) (l : List Char)
    (x : Char) (xs : List Char) (hd : l.dropWhile p = x :: xs) :
    l.takeWhile p ++ (x :: xs) = l := by
  rw [← hd]
  exact List.takeWhile_append_dropWhile p l

theorem pyPartitionChar_concat (s : String) (c : Char) :
    (pyPartitionChar s c).1 ++ ((pyPartitionChar s c).2.1 ++
      (pyPartitionChar s c).2.2) = s := by
  apply String.ext
  cases hd : s.data.dropWhile (· ≠ c) with
  | nil =>
    simp only [pyPartitionChar, hd, String.data_append]
    have h2 := List.takeWhile_append_dropWhile (p := (· ≠ c)) (l := s.data)
    rw [hd, List.append_nil] at h2
    simpa using h2
  | cons x xs =>
    simp only [pyPartitionChar, hd, String.data_append]
    have hx : x = c := by
      have h3 := dropWhile_head_false (· ≠ c) s.data x xs hd
      simpa using h3
    have h2 := partitionChar_concat_data (· ≠ c) s.data x xs hd
    rw [hx] at h2
    simpa using h2

theorem charIndex_recover (c : Char) :
    ∀ (l : List Char) (p : Nat), charIndex c l = some p →
      l.take p ++ c :: l.drop (p + 1) = l := by
  intro l
  induction l with
  | nil => intro p h; simp [charIndex] at h
  | cons x xs ih =>
    intro p h
    rw [charIndex] at h
    by_cases hx : x = c
    · rw [if_pos hx] at h
      have hp : 0 = p := by simpa using h
      subst hp
      simp [hx]
    · rw [if_neg hx] at h
      cases hq : charIndex c xs with
      | none => rw [hq] at h; simp at h
      | some q =>
        rw [hq] at h
        have hp : q + 1 = p := by simpa using h
        subst hp
        simp only [List.take_succ_cons, List.drop_succ_cons, List.cons_append]
        rw [ih q hq]

theorem getLast?_recover :
    ∀ (l : List Char) (x : Char), l.getLast? = some x →
      l.dropLast ++ [x] = l := by
  intro l
  induction l with
  | nil => intro x h; simp at h
  | cons y ys ih =>
    intro x h
    cases ys with
    | nil =>
      have hxy : y = x := by simpa [List.getLast?] using h
      simp [hxy]
    | cons z zs =>
      rw [List.getLast?_cons_cons] at h
      have h2 := ih x h
      show (y :: (z :: zs).dropLast) ++ [x] = y :: z :: zs
      rw [List.cons_append, h2]

theorem args_recover (l : List Char) (p : Nat)
    (hp : charIndex '(' l = some p) (hlast : l.getLast? = some ')') :
    (l.drop (p + 1)).dropLast ++ [')'] = l.drop (p + 1) := by
  have hrec := charIndex_recover '(' l p hp
  have hne : l.drop (p + 1) ≠ [] := by
    intro hnil
    rw [hnil] at hrec
    rw [← hrec, getLast?_append_singleton] at hlast
    simp at hlast
  have hl2 : (l.drop (p + 1)).getLast? = some ')' := by
    have hsplit : l = (l.take p ++ ['(']) ++ l.drop (p + 1) := by
      rw [List.append_assoc]
      simpa using hrec.symm
    rw [hsplit, List.getLast?_append_of_ne_nil _ hne] at hlast
    exact hlast
  exact getLast?_recover _ _ hl2

theorem pyLower_function :
    pyLower (ProcKind.objtype ProcKind.function) = "function" := by decide

theorem pyLower_aggregate :
    pyLower (ProcKind.objtype ProcKind.aggregate) = "aggregate" := by decide

theorem from_map_entry_extern_key (sch key : String) (i : InFunc) (f : Func)
    (h : ProcDict.from_map_entry sch key i = Except.ok f) :
    f.extern_key = key := by
  simp only [ProcDict.from_map_entry] at h
  split at h
  · exact absurd h (by simp)
  · rename_i hguard
    push_neg at hguard
    obtain ⟨hspc, hobj⟩ := hguard
    split at h
    · exact absurd h (by simp)
    · rename_i p hp
      split at h
      · exact absurd h (by simp)
      · rename_i hlast'
        have hlast : (pyPartitionChar key ' ').2.2.data.getLast? = some ')' :=
          not_ne_iff.mp hlast'
        have hconcat := pyPartitionChar_concat key ' '
        have hrec := charIndex_recover '('
          (pyPartitionChar key ' ').2.2.data p hp
        have hargs := args_recover (pyPartitionChar key ' ').2.2.data p hp hlast
        rw [← hconcat, hspc]
        rcases or_iff_not_imp_left.mpr hobj with hob | hob
        · rw [hob] at h
          have hk : (if ("function" : String) = "function"
              then ProcKind.function else ProcKind.aggregate) =
              ProcKind.function := by simp
          rw [hk] at h
          split at h
          · exact absurd h (by simp)
          · split at h
            · exact absurd h (by simp)
            · have hf := (Except.ok.injEq _ _ ▸ h).symm
              rw [hob, hf]
              simp only [Func.extern_key, pyLower_function]
              apply String.ext
              simp only [String.data_append, List.append_assoc]
              rw [hargs]
              simpa using hrec
        · rw [hob] at h
          have hk : (if ("aggregate" : String) = "function"
              then ProcKind.function else ProcKind.aggregate) =
              ProcKind.aggregate := by simp
          rw [hk] at h
          split at h
          · exact absurd h (by simp)
          · split at h
            · rename_i hcond
              exact absurd hcond.1 (by simp)
            · have hf := (Except.ok.injEq _ _ ▸ h).symm
              rw [hob, hf]
              simp only [Func.extern_key, pyLower_aggregate]
              apply String.ext
              simp only [String.data_append, List.append_assoc]
              rw [hargs]
              simpa using hrec

theorem rfind_spec (pat : List Char) :
    ∀ (l : List Char) (i : Nat), rfindList pat l = some i →
      pat.isPrefixOf (l.drop i) = true := by
  intro l
  induction l with
  | nil =>
    intro i h
    simp only [rfindList] at h
    split at h
    · rename_i hp
      have h0 : 0 = i := by simpa using h
      subst h0
      simpa using hp
    · cases h
  | cons c rest ih =>
    intro i h
    simp only [rfindList] at h
    cases hr : rfindList pat rest with
    | some j =>
      simp only [hr] at h
      have hj : j + 1 = i := by simpa using h
      subst hj
      simpa using ih j hr
    | none =>
      simp only [hr] at h
      split at h
      · rename_i hp
        have h0 : 0 = i := by simpa using h
        subst h0
        simpa using hp
      · cases h

theorem rfind_none (pat : List Char) :
    ∀ (l : List Char) (j : Nat), rfindList pat l = none →
      pat.isPrefixOf (l.drop j) = false := by
  intro l
  induction l with
  | nil =>
    intro j h
    simp only [rfindList] at h
    split at h
    · cases h
    · rename_i hp
      simp only [List.drop_nil]
      exact Bool.eq_false_iff.mpr hp
  | cons c rest ih =>
    intro j h
    simp only [rfindList] at h
    cases hr : rfindList pat rest with
    | some k =>
      simp only [hr] at h
      exact absurd h (by simp)
    | none =>
      simp only [hr] at h
      split at h
      · cases h
      · rename_i hp
        cases j with
        | zero =>
          simp only [List.drop_zero]
          exact Bool.eq_false_iff.mpr hp
        | succ k =>
          simpa using ih k hr

theorem rfind_ge (pat : List Char) (hne : pat ≠ []) :
    ∀ (l : List Char) (i j : Nat), rfindList pat l = some i →
      pat.isPrefixOf (l.drop j) = true → j ≤ i := by
  intro l
  induction l with
  | nil =>
    intro i j _ hocc
    exfalso
    apply hne
    have hpre : pat <+: ([] : List Char) :=
      List.isPrefixOf_iff_prefix.mp (by simpa using hocc)
    simpa using hpre
  | cons c rest ih =>
    intro i j h hocc
    simp only [rfindList] at h
    cases j with
    | zero => exact Nat.zero_le i
    | succ k =>
      have hocck : pat.isPrefixOf (rest.drop k) = true := by simpa using hocc
      cases hr : rfindList pat rest with
      | some w =>
        simp only [hr] at h
        have hw : w + 1 = i := by simpa using h
        subst hw
        have := ih w k hr hocck
        omega
      | none =>
        have hb := rfind_none pat rest k hr
        rw [hb] at hocck
        cases hocck

theorem key_assoc_opfam (n m : String) :
    "operator family " ++ n ++ " using " ++ m =
      "operator family " ++ (n ++ (" using " ++ m)) := by
  simp [String.append_assoc]

theorem opfam_key_data (n m : String) :
    ("operator family " ++ (n ++ (" using " ++ m))).data =
      "operator family ".data ++ (n.data ++ (" using ".data ++ m.data)) := rfl

theorem opfam_guard (n m : String) :
    strStarts ("operator family " ++ (n ++ (" using " ++ m)))
      "operator family " = true := by
  show ("operator family ".data).isPrefixOf
    (("operator family " ++ (n ++ (" using " ++ m))).data) = true
  rw [opfam_key_data]
  exact List.isPrefixOf_iff_prefix.mpr (List.prefix_append _ _)

theorem opfam_occurrence (n m : String) :
    (" using ".data).isPrefixOf
      ((("operator family " ++ (n ++ (" using " ++ m))).data).drop
        (16 + n.data.length)) = true := by
  rw [opfam_key_data]
  have hsh : "operator family ".data ++ (n.data ++ (" using ".data ++ m.data)) =
      ("operator family ".data ++ n.data) ++ (" using ".data ++ m.data) := by
    simp
  rw [hsh]
  have h16 : ("operator family ".data).length = 16 := by decide
  have hlen : ("operator family ".data ++ n.data).length = 16 + n.data.length := by
    rw [List.length_append, h16]
  rw [← hlen, List.drop_left]
  exact List.isPrefixOf_iff_prefix.mpr (List.prefix_append _ _)

theorem opfam_eval (sch : String) (io : OpFamIn) (key : String) (pos : Nat)
    (hstart : strStarts key "operator family " = true)
    (hrf : rfindList " using ".data key.data = some pos) :
    OperatorFamilyDict.from_map_entry sch key io = Except.ok
      { name := ⟨(key.data.drop 16).take (pos - 16)⟩, schema := sch,
        index_method := ⟨key.data.drop (pos + 7)⟩,
        description := io.description, owner := io.owner,
        oldname := io.oldname } := by
  simp only [OperatorFamilyDict.from_map_entry, hstart, hrf]
  simp

theorem opfam_roundtrip (sch n m : String) (io : OpFamIn) :
    ∃ o, OperatorFamilyDict.from_map_entry sch
        ("operator family " ++ (n ++ (" using " ++ m))) io = Except.ok o ∧
      o.extern_key = "operator family " ++ (n ++ (" using " ++ m)) := by
  cases hrf : rfindList " using ".data
      ("operator family " ++ (n ++ (" using " ++ m))).data with
  | none =>
    exfalso
    have hocc := opfam_occurrence n m
    rw [rfind_none " using ".data _ (16 + n.data.length) hrf] at hocc
    cases hocc
  | some pos =>
    have hocc0 := opfam_occurrence n m
    have hge : 16 + n.data.length ≤ pos :=
      rfind_ge " using ".data (by decide) _ pos (16 + n.data.length) hrf hocc0
    have h16 : 16 ≤ pos := by omega
    have hocc := rfind_spec " using ".data _ pos hrf
    obtain ⟨t, ht⟩ := List.isPrefixOf_iff_prefix.mp hocc
    refine ⟨_, opfam_eval sch io _ pos (opfam_guard n m) hrf, ?_⟩
    have h7 : (" using ".data).length = 7 := by decide
    have htt : t = (("operator family " ++ (n ++ (" using " ++ m))).data).drop
        (pos + 7) := by
      rw [show (("operator family " ++ (n ++ (" using " ++ m))).data).drop
            (pos + 7) =
          ((("operator family " ++ (n ++ (" using " ++ m))).data).drop pos).drop 7
        from (List.drop_drop 7 pos _).symm]
      rw [← ht, ← h7, List.drop_left]
    have ht7 : " using ".data ++
        ((("operator family " ++ (n ++ (" using " ++ m))).data).drop (pos + 7)) =
        (("operator family " ++ (n ++ (" using " ++ m))).data).drop pos := by
      rw [← htt]
      exact ht
    have e2 := List.take_append_drop (pos - 16)
      ((("operator family " ++ (n ++ (" using " ++ m))).data).drop 16)
    have e3 : ((("operator family " ++ (n ++ (" using " ++ m))).data).drop
        16).drop (pos - 16) =
        (("operator family " ++ (n ++ (" using " ++ m))).data).drop pos := by
      rw [List.drop_drop]
      congr 1
      omega
    have htake16 : (("operator family " ++ (n ++ (" using " ++ m))).data).take
        16 = "operator family ".data := by
      rw [opfam_key_data]
      rw [show (16 : Nat) = ("operator family ".data).length from by decide]
      exact List.take_left _ _
    have hP : (⟨(("operator family " ++ (n ++ (" using " ++ m))).data).take 16⟩ :
        String) = "operator family " := by
      rw [htake16]
    have hUD : (" using " : String) ++
        ⟨(("operator family " ++ (n ++ (" using " ++ m))).data).drop (pos + 7)⟩ =
        (⟨(("operator family " ++ (n ++ (" using " ++ m))).data).drop pos⟩ :
          String) :=
      congrArg String.mk ht7
    have hS : (⟨((("operator family " ++ (n ++ (" using " ++ m))).data).drop
          16).take (pos - 16)⟩ : String) ++
        ⟨(("operator family " ++ (n ++ (" using " ++ m))).data).drop pos⟩ =
        (⟨(("operator family " ++ (n ++ (" using " ++ m))).data).drop 16⟩ :
          String) :=
      congrArg String.mk (by rw [← e3, e2])
    simp only [OperatorFamily.extern_key]
    rw [show pyLower "OPERATOR FAMILY" = "operator family" from by decide]
    rw [show ("operator family" : String) ++ " " = "operator family " from rfl]
    rw [String.append_assoc _ " using "
      ⟨(("operator family " ++ (n ++ (" using " ++ m))).data).drop (pos + 7)⟩]
    rw [hUD]
    rw [String.append_assoc]
    rw [hS]
    rw [← hP]
    exact congrArg String.mk (List.take_append_drop 16 _)

/-- C9.  External keys round-trip: any function or aggregate entry
accepted by `ProcDict.from_map` reproduces its key verbatim through
`extern_key`, and any key of the form
`operator family <name> using <method>` accepted by
`OperatorFamilyDict.from_map` is reproduced verbatim by the constructed
operator family's `extern_key`. -/
theorem claim9_extern_key_roundtrip :
    (∀ (sch key : String) (i : InFunc) (f : Func),
      ProcDict.from_map_entry sch key i = Except.ok f → f.extern_key = key) ∧
    (∀ (sch n m : String) (io : OpFamIn),
      ∃ o, OperatorFamilyDict.from_map_entry sch
          ("operator family " ++ n ++ " using " ++ m) io = Except.ok o ∧
        o.extern_key = "operator family " ++ n ++ " using " ++ m) := by
  constructor
  · exact from_map_entry_extern_key
  · intro sch n m io
    rw [key_assoc_opfam]
    exact opfam_roundtrip sch n m io

/-- Witness for C9 at concrete inputs: the key
`function foo(integer)` loads to an object whose external key is that
same string, and an operator-family key round-trips likewise. -/
theorem claim9_extern_key_roundtrip_witness :
    Func.extern_key fooParsed = "function foo(integer)" ∧
    (∃ o, OperatorFamilyDict.from_map_entry "public"
        ("operator family " ++ "btree_ops" ++ " using " ++ "btree") inOpFam =
        Except.ok o ∧
      o.extern_key = "operator family " ++ "btree_ops" ++ " using " ++ "btree") := by
  constructor
  · exact claim9_extern_key_roundtrip.1 "public" "function foo(integer)"
      inSrcOnly fooParsed rfl
  · exact claim9_extern_key_roundtrip.2 "public" "btree_ops" "btree" inOpFam

end Pyrseas
